import Mathlib

/-!
Shallow embedding of the scale-generation core of `main.py`
(lilypond_generator) and verification of the spec's claims about it.

The embedded functions mirror the Python source:
  * `SCALE_INTERVALS`, `NOTE_ORDER`, `SCALE_TYPES` — the static tables;
  * `get_note_index` — note-name to pitch-class index resolution with
    enharmonic fallback and the non-fatal default-to-c warning (modelled
    as a `warned` flag in the result);
  * `next_note` — advance a note name by an interval modulo 12;
  * `generate_scale_notes` — build the ascending-then-descending scale;
    the fatal `sys.exit(1)` on an unsupported scale type is modelled as
    an `Except` error carrying the diagnostic and exit code;
  * `main_run` — the `__main__` driver's octave validation followed by
    generation for each entry of `SCALE_TYPES` (file IO and subprocess
    calls are outside the embedding).
-/

/-- Interval patterns for the supported scale types (`SCALE_INTERVALS`). -/
def SCALE_INTERVALS : List (String × List Nat) :=
  [("major", [2, 2, 1, 2, 2, 2, 1]),
   ("minor", [2, 1, 2, 2, 1, 2, 2]),
   ("harmonic_minor", [2, 1, 2, 2, 1, 3, 1])]

/-- The sharp-preferred chromatic note table (`NOTE_ORDER`). -/
def NOTE_ORDER : List String :=
  ["c", "c#", "d", "d#", "e", "f", "f#", "g", "g#", "a", "a#", "b"]

/-- The scale types generated by the main driver (`SCALE_TYPES`). -/
def SCALE_TYPES : List String := ["major", "harmonic_minor"]

/-- The enharmonic map local to `get_note_index`: flat/alternate
spellings mapped to the canonical spelling used in `NOTE_ORDER`. -/
def enharmonic : List (String × String) :=
  [("db", "c#"), ("eb", "d#"), ("gb", "f#"), ("ab", "g#"),
   ("bb", "a#"), ("cb", "b"), ("fb", "e")]

/-- Python's `str.lower()` on one ASCII character: shift an upper-case
letter into lower case, leave everything else alone. -/
def lowerChar (c : Char) : Char :=
  if 'A' ≤ c ∧ c ≤ 'Z' then Char.ofNat (c.toNat + 32) else c

/-- Python's `str.lower()` (the note names in play are ASCII). -/
def str_lower (s : String) : String := ⟨s.data.map lowerChar⟩

/-- Result of a note lookup: the pitch-class index, together with
whether the non-fatal "not recognized, defaulting to c" warning was
printed on the way. -/
structure LookupResult where
  index : Nat
  warned : Bool
  deriving Repr, DecidableEq

/-- The body of `get_note_index` after the `note.lower()` step:
direct table hit, else enharmonic hit, else warn and default to c. -/
def resolve (n : String) : LookupResult :=
  if n ∈ NOTE_ORDER then
    ⟨NOTE_ORDER.indexOf n, false⟩
  else
    match enharmonic.lookup n with
    | some canon => ⟨NOTE_ORDER.indexOf canon, false⟩
    | none => ⟨NOTE_ORDER.indexOf "c", true⟩

/-- `get_note_index(note)`: lower-case, then resolve against
`NOTE_ORDER` with the enharmonic fallback. -/
def get_note_index (note : String) : LookupResult :=
  resolve (str_lower note)

/-- `next_note(current_note, interval)`: index of the current note plus
the interval, modulo the 12-tone cycle, spelled via `NOTE_ORDER`. -/
def next_note (current_note : String) (interval : Nat) : String :=
  let index := (get_note_index current_note).index
  let next_index := (index + interval) % NOTE_ORDER.length
  NOTE_ORDER.getD next_index ""

/-- The notes appended by one pass of the `for interval in intervals`
loop of `generate_scale_notes`, starting (but not including) `cur`. -/
def walk : String → List Nat → List String
  | _, [] => []
  | cur, i :: rest => next_note cur i :: walk (next_note cur i) rest

/-- The notes appended by the `for _ in range(1, octaves)` loop:
`reps` copies of the walk restarted from the last note of the first
octave (`scale[-1]`, which the Python loop re-reads each iteration). -/
def extra_segments (startNote : String) (intervals : List Nat) : Nat → List String
  | 0 => []
  | r + 1 => walk startNote intervals ++ extra_segments startNote intervals r

/-- The ascending portion (`full_scale` in the source): the lower-cased
key, one octave of the interval walk, then `octaves - 1` further
segments each restarted from the first octave's last note. -/
def ascending_part (key : String) (intervals : List Nat) (octaves : Nat) : List String :=
  let scale := str_lower key :: walk (str_lower key) intervals
  scale ++ extra_segments (scale.getLastD "") intervals (octaves - 1)

/-- The descending portion (`descending_scale = full_scale[::-1][1:]`). -/
def descending_part (key : String) (intervals : List Nat) (octaves : Nat) : List String :=
  ((ascending_part key intervals octaves).reverse).drop 1

/-- A fatal error: the printed diagnostic together with the
`sys.exit` code. -/
structure FatalError where
  msg : String
  code : Nat
  deriving Repr, DecidableEq

/-- `generate_scale_notes(key, scale_type, octaves)`: fatal error for an
unsupported scale type, otherwise the combined ascending ++ descending
note list. -/
def generate_scale_notes (key scale_type : String) (octaves : Nat) :
    Except FatalError (List String) :=
  match SCALE_INTERVALS.lookup scale_type with
  | none =>
      .error ⟨"Error: Scale type '" ++ scale_type ++ "' is not supported.", 1⟩
  | some intervals =>
      .ok (ascending_part key intervals octaves ++ descending_part key intervals octaves)

/-- The rhythmic rendering of the combined scale: each note gets a
quarter-note marker and the tokens are joined by single spaces. -/
def notes_with_rhythm (combined : List String) : String :=
  String.intercalate " " (combined.map (fun n => n ++ "4"))

/-- The `__main__` driver on its two user-defined variables: validate
the octave count, then generate every scale type in `SCALE_TYPES`
(the file deletion and subprocess steps are outside the model). -/
def main_run (key : String) (octaves : Int) :
    Except FatalError (List (List String)) :=
  if ¬ (1 ≤ octaves ∧ octaves ≤ 4) then
    .error ⟨"Error: Number of octaves must be an integer between 1 and 4.", 1⟩
  else
    SCALE_TYPES.mapM (fun st => generate_scale_notes key st octaves.toNat)

/-! ### Basic facts about the tables and the resolver -/

/-- The chromatic table has the twelve pitch classes. -/
theorem NOTE_ORDER_length : NOTE_ORDER.length = 12 := rfl

/-- Every resolved pitch-class index is below 12. -/
theorem resolve_index_lt (n : String) : (resolve n).index < 12 := by
  unfold resolve
  split
  · rename_i h
    simpa [NOTE_ORDER_length] using List.indexOf_lt_length.mpr h
  · split
    · rename_i c hc
      simp only [enharmonic, List.lookup] at hc
      repeat' split at hc
      all_goals first
        | (injection hc with h; subst h; decide)
        | (injection hc)
    · decide

/-- Every pitch-class index returned by `get_note_index` is below 12. -/
theorem get_note_index_lt (n : String) : (get_note_index n).index < 12 :=
  resolve_index_lt (str_lower n)

/-- Resolving a spelled table entry recovers its index, without warning. -/
theorem get_note_index_getD :
    ∀ k, k < 12 → get_note_index (NOTE_ORDER.getD k "") = ⟨k, false⟩ := by
  decide

/-- Entries of the table read back as members of the table. -/
theorem NOTE_ORDER_getD_mem : ∀ k, k < 12 → NOTE_ORDER.getD k "" ∈ NOTE_ORDER := by
  decide

/-- `next_note` unfolded: index arithmetic modulo 12 spelled via the table. -/
theorem next_note_eq (n : String) (i : Nat) :
    next_note n i = NOTE_ORDER.getD (((get_note_index n).index + i) % 12) "" := rfl

/-- The index of the next note is the advanced index modulo 12. -/
theorem get_note_index_next_note (n : String) (i : Nat) :
    (get_note_index (next_note n i)).index = ((get_note_index n).index + i) % 12 := by
  rw [next_note_eq, get_note_index_getD _ (Nat.mod_lt _ (by decide))]

/-- `next_note` always lands inside the chromatic table. -/
theorem next_note_mem (n : String) (i : Nat) : next_note n i ∈ NOTE_ORDER := by
  rw [next_note_eq]
  exact NOTE_ORDER_getD_mem _ (Nat.mod_lt _ (by decide))

/-! ### Facts about the interval walk -/

/-- One pass of the interval loop appends one note per interval. -/
theorem walk_length (n : String) (ivs : List Nat) : (walk n ivs).length = ivs.length := by
  induction ivs generalizing n with
  | nil => rfl
  | cons i rest ih => simp [walk, ih]

/-- Every note produced by the interval loop is a table entry. -/
theorem walk_mem (n : String) (ivs : List Nat) : ∀ m ∈ walk n ivs, m ∈ NOTE_ORDER := by
  induction ivs generalizing n with
  | nil => simp [walk]
  | cons i rest ih =>
    intro m hm
    rcases (by simpa [walk] using hm : m = next_note n i ∨ m ∈ walk (next_note n i) rest) with
      h | h
    · exact h ▸ next_note_mem n i
    · exact ih _ m h

/-- The interval loop produces something whenever there is an interval. -/
theorem walk_ne_nil (n : String) {ivs : List Nat} (h : ivs ≠ []) : walk n ivs ≠ [] := by
  cases ivs with
  | nil => exact absurd rfl h
  | cons i rest => simp [walk]

/-- `getLastD` ignores the default on a non-empty list. -/
theorem getLastD_irrel {α : Type} (l : List α) (h : l ≠ []) (d1 d2 : α) :
    l.getLastD d1 = l.getLastD d2 := by
  cases l with
  | nil => exact absurd rfl h
  | cons a t => rw [List.getLastD_cons, List.getLastD_cons]

/-- `getLastD` of an append with a non-empty right part reads the right part. -/
theorem getLastD_append_right {α : Type} (l1 l2 : List α) (h : l2 ≠ []) (d : α) :
    (l1 ++ l2).getLastD d = l2.getLastD d := by
  induction l1 generalizing d with
  | nil => rfl
  | cons a t ih =>
    rw [List.cons_append, List.getLastD_cons, ih a]
    exact getLastD_irrel l2 h a d

/-- The last note of a non-trivial interval walk is the start's index
advanced by the pattern's total, modulo 12. -/
theorem walk_getLastD (n d : String) (ivs : List Nat) (h : ivs ≠ []) :
    (walk n ivs).getLastD d =
      NOTE_ORDER.getD (((get_note_index n).index + ivs.sum) % 12) "" := by
  induction ivs generalizing n d with
  | nil => exact absurd rfl h
  | cons i rest ih =>
    cases rest with
    | nil => simp [walk, next_note_eq, List.getLastD_cons]
    | cons j rest2 =>
      rw [show walk n (i :: j :: rest2) =
            next_note n i :: walk (next_note n i) (j :: rest2) from rfl,
          List.getLastD_cons, ih _ _ (by simp), get_note_index_next_note,
          Nat.mod_add_mod]
      congr 2
      simp [List.sum_cons]
      omega

/-- Every note appended by the multi-octave loop is a table entry. -/
theorem extra_segments_mem (n : String) (ivs : List Nat) (r : Nat) :
    ∀ m ∈ extra_segments n ivs r, m ∈ NOTE_ORDER := by
  induction r with
  | zero => simp [extra_segments]
  | succ r ih =>
    intro m hm
    rcases (by simpa [extra_segments] using hm :
        m ∈ walk n ivs ∨ m ∈ extra_segments n ivs r) with h | h
    · exact walk_mem n ivs m h
    · exact ih m h

/-- The multi-octave loop appends `reps` notes per interval per pass. -/
theorem extra_segments_length (n : String) (ivs : List Nat) (r : Nat) :
    (extra_segments n ivs r).length = r * ivs.length := by
  induction r with
  | zero => simp [extra_segments]
  | succ r ih =>
    simp [extra_segments, walk_length, ih]
    ring

/-- Peeling a repetition off the far end of the multi-octave loop. -/
theorem extra_segments_succ_right (n : String) (ivs : List Nat) (r : Nat) :
    extra_segments n ivs (r + 1) = extra_segments n ivs r ++ walk n ivs := by
  induction r with
  | zero => simp [extra_segments]
  | succ r ih =>
    have hstep : extra_segments n ivs (r + 1) =
        walk n ivs ++ extra_segments n ivs r := rfl
    have hcomm : walk n ivs ++ extra_segments n ivs r =
        extra_segments n ivs r ++ walk n ivs := by rw [← hstep, ih]
    calc extra_segments n ivs (r + 1 + 1)
        = walk n ivs ++ extra_segments n ivs (r + 1) := rfl
      _ = walk n ivs ++ (extra_segments n ivs r ++ walk n ivs) := by rw [ih]
      _ = (walk n ivs ++ extra_segments n ivs r) ++ walk n ivs := by
            rw [List.append_assoc]
      _ = (extra_segments n ivs r ++ walk n ivs) ++ walk n ivs := by rw [hcomm]
      _ = extra_segments n ivs (r + 1) ++ walk n ivs := by rw [ih]

/-! ### Facts about the ascending portion -/

/-- The ascending portion, with the `let` spelled out. -/
theorem ascending_part_def (key : String) (ivs : List Nat) (o : Nat) :
    ascending_part key ivs o =
      (str_lower key :: walk (str_lower key) ivs) ++
        extra_segments ((str_lower key :: walk (str_lower key) ivs).getLastD "")
          ivs (o - 1) := rfl

/-- The ascending portion is never empty. -/
theorem ascending_part_ne_nil (key : String) (ivs : List Nat) (o : Nat) :
    ascending_part key ivs o ≠ [] := by
  rw [ascending_part_def]
  simp

/-- The first octave ends on the key's pitch class respelled through
the table, whenever the pattern's intervals sum to 12. -/
theorem scale_getLastD_12 (key : String) (ivs : List Nat) (h : ivs ≠ [])
    (hs : ivs.sum = 12) (d : String) :
    (str_lower key :: walk (str_lower key) ivs).getLastD d =
      NOTE_ORDER.getD (get_note_index (str_lower key)).index "" := by
  rw [List.getLastD_cons, walk_getLastD _ _ _ h, hs, Nat.add_mod_right,
      Nat.mod_eq_of_lt (get_note_index_lt _)]

/-- A walk started on a table entry, over a pattern summing to 12,
ends back on that same entry. -/
theorem walk_from_table_getLastD (j : Nat) (hj : j < 12) (ivs : List Nat)
    (h : ivs ≠ []) (hs : ivs.sum = 12) (d : String) :
    (walk (NOTE_ORDER.getD j "") ivs).getLastD d = NOTE_ORDER.getD j "" := by
  rw [walk_getLastD _ _ _ h, get_note_index_getD j hj, hs]
  rw [show (LookupResult.mk j false).index = j from rfl]
  rw [Nat.add_mod_right, Nat.mod_eq_of_lt hj]

/-- The multi-octave loop output is non-empty once it runs. -/
theorem extra_segments_ne_nil (n : String) {ivs : List Nat} (h : ivs ≠ [])
    (r : Nat) (hr : 1 ≤ r) : extra_segments n ivs r ≠ [] := by
  cases r with
  | zero => omega
  | succ r =>
    rw [show extra_segments n ivs (r + 1) =
          walk n ivs ++ extra_segments n ivs r from rfl]
    simp [walk_ne_nil n h]

/-- Each appended octave segment also ends on the same table entry. -/
theorem extra_segments_getLastD (j : Nat) (hj : j < 12) (ivs : List Nat)
    (h : ivs ≠ []) (hs : ivs.sum = 12) (r : Nat) (hr : 1 ≤ r) (d : String) :
    (extra_segments (NOTE_ORDER.getD j "") ivs r).getLastD d =
      NOTE_ORDER.getD j "" := by
  induction r with
  | zero => omega
  | succ r ih =>
    rw [show extra_segments (NOTE_ORDER.getD j "") ivs (r + 1) =
          walk (NOTE_ORDER.getD j "") ivs ++
            extra_segments (NOTE_ORDER.getD j "") ivs r from rfl]
    cases r with
    | zero =>
      rw [show extra_segments (NOTE_ORDER.getD j "") ivs 0 = [] from rfl,
          List.append_nil]
      exact walk_from_table_getLastD j hj ivs h hs d
    | succ r2 =>
      rw [getLastD_append_right _ _ (extra_segments_ne_nil _ h _ (by omega)) d]
      exact ih (by omega)

/-- The whole ascending portion ends on the key's pitch class respelled
through the table. -/
theorem ascending_part_getLastD (key : String) (ivs : List Nat) (h : ivs ≠ [])
    (hs : ivs.sum = 12) (o : Nat) (d : String) :
    (ascending_part key ivs o).getLastD d =
      NOTE_ORDER.getD (get_note_index (str_lower key)).index "" := by
  rw [ascending_part_def, scale_getLastD_12 key ivs h hs ""]
  cases ho : o - 1 with
  | zero =>
    rw [show extra_segments (NOTE_ORDER.getD (get_note_index (str_lower key)).index "")
          ivs 0 = [] from rfl, List.append_nil]
    exact scale_getLastD_12 key ivs h hs d
  | succ r =>
    rw [getLastD_append_right _ _
          (extra_segments_ne_nil _ h _ (by omega)) d]
    exact extra_segments_getLastD _ (get_note_index_lt _) ivs h hs _ (by omega) d

/-- Length of the ascending portion: one note per interval per octave,
plus the starting key. -/
theorem ascending_part_length (key : String) (ivs : List Nat) (o : Nat)
    (h1 : 1 ≤ o) :
    (ascending_part key ivs o).length = o * ivs.length + 1 := by
  cases o with
  | zero => omega
  | succ m =>
    rw [ascending_part_def]
    simp [walk_length, extra_segments_length, Nat.succ_sub_one]
    ring

/-- Octave chaining: one more octave extends the ascending portion by a
walk that starts from the current last note. -/
theorem ascending_part_succ (key : String) (ivs : List Nat) (h : ivs ≠ [])
    (hs : ivs.sum = 12) (o : Nat) (h1 : 1 ≤ o) :
    ascending_part key ivs (o + 1) =
      ascending_part key ivs o ++
        walk ((ascending_part key ivs o).getLastD "") ivs := by
  obtain ⟨m, rfl⟩ : ∃ m, o = m + 1 := ⟨o - 1, by omega⟩
  rw [ascending_part_getLastD key ivs h hs (m + 1) ""]
  rw [ascending_part_def, ascending_part_def, scale_getLastD_12 key ivs h hs ""]
  rw [show m + 1 + 1 - 1 = m + 1 from rfl, show m + 1 - 1 = m from rfl]
  rw [extra_segments_succ_right, List.append_assoc]

/-- Every note of the ascending portion after the starting key is a
table entry. -/
theorem ascending_part_tail_mem (key : String) (ivs : List Nat) (o : Nat) :
    ∀ m ∈ walk (str_lower key) ivs ++
        extra_segments ((str_lower key :: walk (str_lower key) ivs).getLastD "")
          ivs (o - 1), m ∈ NOTE_ORDER := by
  intro m hm
  rcases List.mem_append.mp hm with h | h
  · exact walk_mem _ ivs m h
  · exact extra_segments_mem _ ivs _ m h

/-- The spec's description of one ascending octave: a walk on
pitch-class indices, advancing by each interval modulo 12 and spelling
each step through the sharp-preferred table. -/
def spellWalk : Nat → List Nat → List String
  | _, [] => []
  | i, v :: rest => NOTE_ORDER.getD ((i + v) % 12) "" :: spellWalk ((i + v) % 12) rest

/-- The source's note-name walk computes exactly the spec's index walk
started from the resolved index of the first note. -/
theorem walk_eq_spellWalk (n : String) (ivs : List Nat) :
    walk n ivs = spellWalk (get_note_index n).index ivs := by
  induction ivs generalizing n with
  | nil => rfl
  | cons v rest ih =>
    rw [show walk n (v :: rest) =
          next_note n v :: walk (next_note n v) rest from rfl,
        ih, get_note_index_next_note, next_note_eq]
    rfl

/-- The supported interval patterns all have seven steps that sum to an
octave. -/
theorem lookup_intervals (st : String) (ivs : List Nat)
    (h : SCALE_INTERVALS.lookup st = some ivs) :
    ivs.length = 7 ∧ ivs.sum = 12 ∧ ivs ≠ [] := by
  simp only [SCALE_INTERVALS, List.lookup] at h
  repeat' split at h
  all_goals first
    | (injection h with h2; subst h2; refine ⟨by decide, by decide, by decide⟩)
    | (injection h)

/-- Lower-casing is inert on a note name that `resolve` recognizes,
directly or through the enharmonic map. -/
theorem resolve_str_lower (t : String)
    (h : t ∈ NOTE_ORDER ∨ t ∈ enharmonic.map Prod.fst) :
    resolve (str_lower t) = resolve t := by
  rcases h with h | h
  · simp only [NOTE_ORDER, List.mem_cons, List.not_mem_nil, or_false] at h
    rcases h with rfl | rfl | rfl | rfl | rfl | rfl | rfl | rfl | rfl | rfl | rfl | rfl <;>
      decide
  · simp only [enharmonic, List.map_cons, List.map_nil, List.mem_cons,
      List.not_mem_nil, or_false] at h
    rcases h with rfl | rfl | rfl | rfl | rfl | rfl | rfl <;> decide

/-- On a supported scale type, `generate_scale_notes` succeeds with
the ascending portion followed by the descending portion. -/
theorem generate_eq_ok (key st : String) (ivs : List Nat) (o : Nat)
    (hst : SCALE_INTERVALS.lookup st = some ivs) :
    generate_scale_notes key st o =
      .ok (ascending_part key ivs o ++ descending_part key ivs o) := by
  unfold generate_scale_notes
  rw [hst]

/-! ### The claims -/

/-- C1: for every supported scale type, every starting key, and every
octave count in [1,4], `generate_scale_notes` succeeds with a note
sequence whose length is `2*(octaves*stepsPerOctave + 1) - 1`, where
stepsPerOctave, the number of intervals in the pattern, is 7. -/
theorem claim1_generated_length (key st : String) (ivs : List Nat) (o : Nat)
    (hst : SCALE_INTERVALS.lookup st = some ivs) (h1 : 1 ≤ o) (h4 : o ≤ 4) :
    ivs.length = 7 ∧
    ∃ notes, generate_scale_notes key st o = .ok notes ∧
      notes.length = 2 * (o * ivs.length + 1) - 1 := by
  obtain ⟨hlen, hsum, hne⟩ := lookup_intervals st ivs hst
  refine ⟨hlen, ascending_part key ivs o ++ descending_part key ivs o,
    generate_eq_ok key st ivs o hst, ?_⟩
  rw [List.length_append,
      show descending_part key ivs o =
        ((ascending_part key ivs o).reverse).drop 1 from rfl,
      List.length_drop, List.length_reverse,
      ascending_part_length key ivs o h1]
  omega

/-- Witness for C1 at key c, major, two octaves. -/
theorem claim1_generated_length_witness :
    SCALE_INTERVALS.lookup "major" = some [2, 2, 1, 2, 2, 2, 1] ∧
    (([2, 2, 1, 2, 2, 2, 1] : List Nat).length = 7 ∧
     ∃ notes, generate_scale_notes "c" "major" 2 = .ok notes ∧
       notes.length = 2 * (2 * ([2, 2, 1, 2, 2, 2, 1] : List Nat).length + 1) - 1) :=
  ⟨rfl, claim1_generated_length "c" "major" [2, 2, 1, 2, 2, 2, 1] 2 rfl
    (by decide) (by decide)⟩

/-- C2: the descending portion is the reversed ascending portion with
its first (topmost) element dropped, and hence the produced sequence is
the ascending portion followed by the mirror of its strict prefix, so
the turnaround note occupies exactly one position. -/
theorem claim2_descending_reverse (key st : String) (ivs : List Nat) (o : Nat)
    (hst : SCALE_INTERVALS.lookup st = some ivs) (h1 : 1 ≤ o) (h4 : o ≤ 4) :
    descending_part key ivs o = ((ascending_part key ivs o).reverse).drop 1 ∧
    generate_scale_notes key st o =
      .ok ((ascending_part key ivs o).dropLast ++
        (ascending_part key ivs o).getLastD "" ::
          ((ascending_part key ivs o).dropLast).reverse) := by
  refine ⟨rfl, ?_⟩
  rw [generate_eq_ok key st ivs o hst]
  congr 1
  have hne := ascending_part_ne_nil key ivs o
  have hsplit : ascending_part key ivs o =
      (ascending_part key ivs o).dropLast ++
        [(ascending_part key ivs o).getLastD ""] := by
    rw [List.getLastD_eq_getLast? , List.getLast?_eq_getLast _ hne, Option.getD_some,
        List.dropLast_append_getLast hne]
  have h2 : ((ascending_part key ivs o).reverse).drop 1 =
      ((ascending_part key ivs o).dropLast).reverse := by
    conv_lhs => rw [hsplit]
    rw [List.reverse_append, List.reverse_singleton]
    rfl
  rw [show descending_part key ivs o =
        ((ascending_part key ivs o).reverse).drop 1 from rfl, h2]
  conv_lhs => rw [hsplit]
  simp [List.append_assoc]

/-- Witness for C2 at key c, major, one octave. -/
theorem claim2_descending_reverse_witness :
    descending_part "c" [2, 2, 1, 2, 2, 2, 1] 1 =
      ((ascending_part "c" [2, 2, 1, 2, 2, 2, 1] 1).reverse).drop 1 ∧
    generate_scale_notes "c" "major" 1 =
      .ok ((ascending_part "c" [2, 2, 1, 2, 2, 2, 1] 1).dropLast ++
        (ascending_part "c" [2, 2, 1, 2, 2, 2, 1] 1).getLastD "" ::
          ((ascending_part "c" [2, 2, 1, 2, 2, 2, 1] 1).dropLast).reverse) :=
  claim2_descending_reverse "c" "major" [2, 2, 1, 2, 2, 2, 1] 1 rfl
    (by decide) (by decide)

/-- C3: adding an octave extends the ascending portion by one more
interval walk started from the current last note (the scale chains
instead of restarting at the root), and for key c, major, two octaves
the ascending portion has exactly 15 = 8 + 7 notes. -/
theorem claim3_octave_chaining (key st : String) (ivs : List Nat) (o : Nat)
    (hst : SCALE_INTERVALS.lookup st = some ivs) (h1 : 1 ≤ o) :
    ascending_part key ivs (o + 1) =
      ascending_part key ivs o ++
        walk ((ascending_part key ivs o).getLastD "") ivs ∧
    (ascending_part "c" [2, 2, 1, 2, 2, 2, 1] 2).length = 15 ∧
    generate_scale_notes "c" "major" 2 =
      .ok (ascending_part "c" [2, 2, 1, 2, 2, 2, 1] 2 ++
        descending_part "c" [2, 2, 1, 2, 2, 2, 1] 2) := by
  obtain ⟨hlen, hsum, hne⟩ := lookup_intervals st ivs hst
  exact ⟨ascending_part_succ key ivs hne hsum o h1, by decide, rfl⟩

/-- Witness for C3 at key c, major, one octave extended to two. -/
theorem claim3_octave_chaining_witness :
    ascending_part "c" [2, 2, 1, 2, 2, 2, 1] (1 + 1) =
      ascending_part "c" [2, 2, 1, 2, 2, 2, 1] 1 ++
        walk ((ascending_part "c" [2, 2, 1, 2, 2, 2, 1] 1).getLastD "")
          [2, 2, 1, 2, 2, 2, 1] ∧
    (ascending_part "c" [2, 2, 1, 2, 2, 2, 1] 2).length = 15 ∧
    generate_scale_notes "c" "major" 2 =
      .ok (ascending_part "c" [2, 2, 1, 2, 2, 2, 1] 2 ++
        descending_part "c" [2, 2, 1, 2, 2, 2, 1] 2) :=
  claim3_octave_chaining "c" "major" [2, 2, 1, 2, 2, 2, 1] 1 rfl (by decide)

/-- C4: for a recognized key the ascending octave is the lower-cased
key followed by the spec's index walk (advance the resolved pitch-class
index by each interval modulo 12, spell via the sharp table), and the
two end-to-end examples from the spec hold. -/
theorem claim4_ascending_spelling (key st : String) (ivs : List Nat)
    (hst : SCALE_INTERVALS.lookup st = some ivs)
    (hkey : str_lower key ∈ NOTE_ORDER ∨ str_lower key ∈ enharmonic.map Prod.fst) :
    ascending_part key ivs 1 =
      str_lower key :: spellWalk (get_note_index key).index ivs ∧
    generate_scale_notes "c" "major" 1 =
      .ok ["c", "d", "e", "f", "g", "a", "b", "c",
           "b", "a", "g", "f", "e", "d", "c"] ∧
    generate_scale_notes "g" "harmonic_minor" 1 =
      .ok ["g", "a", "a#", "c", "d", "d#", "f#", "g",
           "f#", "d#", "d", "c", "a#", "a", "g"] := by
  refine ⟨?_, rfl, rfl⟩
  have h0 : ascending_part key ivs 1 = str_lower key :: walk (str_lower key) ivs := by
    rw [ascending_part_def]
    simp [extra_segments]
  rw [h0, walk_eq_spellWalk,
      show get_note_index (str_lower key) = get_note_index key from
        resolve_str_lower (str_lower key) hkey]

/-- Witness for C4 at the flat-spelled key eb with the major pattern. -/
theorem claim4_ascending_spelling_witness :
    ascending_part "eb" [2, 2, 1, 2, 2, 2, 1] 1 =
      str_lower "eb" :: spellWalk (get_note_index "eb").index [2, 2, 1, 2, 2, 2, 1] ∧
    generate_scale_notes "c" "major" 1 =
      .ok ["c", "d", "e", "f", "g", "a", "b", "c",
           "b", "a", "g", "f", "e", "d", "c"] ∧
    generate_scale_notes "g" "harmonic_minor" 1 =
      .ok ["g", "a", "a#", "c", "d", "d#", "f#", "g",
           "f#", "d#", "d", "c", "a#", "a", "g"] :=
  claim4_ascending_spelling "eb" "major" [2, 2, 1, 2, 2, 2, 1] rfl (by decide)

/-- C5: each of the seven flat/alternate spellings in the enharmonic
map resolves to the same pitch-class index as its mapped sharp/natural
spelling; in particular eb and d# coincide, and eb is indeed mapped to
d# by the table. -/
theorem claim5_enharmonic_equivalence :
    (get_note_index "eb").index = (get_note_index "d#").index ∧
    (get_note_index "db").index = (get_note_index "c#").index ∧
    (get_note_index "gb").index = (get_note_index "f#").index ∧
    (get_note_index "ab").index = (get_note_index "g#").index ∧
    (get_note_index "bb").index = (get_note_index "a#").index ∧
    (get_note_index "cb").index = (get_note_index "b").index ∧
    (get_note_index "fb").index = (get_note_index "e").index ∧
    enharmonic.lookup "eb" = some "d#" := by
  decide

/-- C6: any input whose lower-casing is neither a table entry nor an
enharmonic key resolves, with the warning flag set, to the index of c
(0); `get_note_index` is total, so no exception or exit occurs. -/
theorem claim6_unrecognized_defaults (note : String)
    (h1 : str_lower note ∉ NOTE_ORDER)
    (h2 : enharmonic.lookup (str_lower note) = none) :
    get_note_index note = ⟨0, true⟩ := by
  unfold get_note_index resolve
  rw [if_neg h1, h2]
  rfl

/-- Witness for C6 at the unrecognized input xyz. -/
theorem claim6_unrecognized_defaults_witness :
    str_lower "xyz" ∉ NOTE_ORDER ∧ get_note_index "xyz" = ⟨0, true⟩ :=
  ⟨by decide, claim6_unrecognized_defaults "xyz" (by decide) (by decide)⟩

/-- C7: any scale type outside the recognized set makes
`generate_scale_notes` stop fatally with the diagnostic and exit code
1, producing no notes. -/
theorem claim7_unsupported_scale_fatal (key st : String) (o : Nat)
    (h1 : st ≠ "major") (h2 : st ≠ "minor") (h3 : st ≠ "harmonic_minor") :
    generate_scale_notes key st o =
      .error ⟨"Error: Scale type '" ++ st ++ "' is not supported.", 1⟩ := by
  unfold generate_scale_notes
  have hl : SCALE_INTERVALS.lookup st = none := by
    simp only [SCALE_INTERVALS, List.lookup, beq_eq_false_iff_ne.mpr h1,
      beq_eq_false_iff_ne.mpr h2, beq_eq_false_iff_ne.mpr h3]
  rw [hl]

/-- Witness for C7 at the unsupported scale type dorian. -/
theorem claim7_unsupported_scale_fatal_witness :
    ("dorian" : String) ≠ "major" ∧
    generate_scale_notes "c" "dorian" 2 =
      .error ⟨"Error: Scale type '" ++ "dorian" ++ "' is not supported.", 1⟩ :=
  ⟨by decide, claim7_unsupported_scale_fatal "c" "dorian" 2
    (by decide) (by decide) (by decide)⟩

/-- C8: an octave count outside [1,4] makes the driver stop with the
fatal validation diagnostic before any generation or table lookup; no
scale sequence is produced. -/
theorem claim8_invalid_octaves_fatal (key : String) (octaves : Int)
    (h : octaves < 1 ∨ 4 < octaves) :
    main_run key octaves =
      .error ⟨"Error: Number of octaves must be an integer between 1 and 4.", 1⟩ := by
  unfold main_run
  have hc : ¬ (1 ≤ octaves ∧ octaves ≤ 4) := by omega
  rw [if_pos hc]

/-- Witness for C8 at octave counts 0 and 5. -/
theorem claim8_invalid_octaves_fatal_witness :
    main_run "c" 0 =
      .error ⟨"Error: Number of octaves must be an integer between 1 and 4.", 1⟩ ∧
    main_run "c" 5 =
      .error ⟨"Error: Number of octaves must be an integer between 1 and 4.", 1⟩ :=
  ⟨claim8_invalid_octaves_fatal "c" 0 (Or.inl (by decide)),
   claim8_invalid_octaves_fatal "c" 5 (Or.inr (by decide))⟩

/-- Modelled from the spec: the Relative-Key Resolver's lookup table
over the 15 standard major keys. No relative-minor table appears in the
two source files present; the spec describes it as immutable static
data mapping each standard major key (C through Cb and the sharp side)
to its relative minor. -/
def RELATIVE_MINOR : List (String × String) :=
  [("c", "a"), ("g", "e"), ("d", "b"), ("a", "f#"), ("e", "c#"),
   ("b", "g#"), ("f#", "d#"), ("c#", "a#"), ("f", "d"), ("bb", "g"),
   ("eb", "c"), ("ab", "f"), ("db", "bb"), ("gb", "eb"), ("cb", "ab")]

/-- Modelled from the spec: `relativeMinor(majorKey)` is a pure lookup
in the table; an unknown key yields a non-fatal diagnostic (the `Bool`
component of the result) and the default a. -/
def relativeMinor (majorKey : String) : String × Bool :=
  match RELATIVE_MINOR.lookup majorKey with
  | some m => (m, false)
  | none => ("a", true)

/-- C9: the relative-minor resolver is a pure lookup over the 15
standard major keys with relativeMinor c = a and relativeMinor eb = c,
and any unknown key warns and defaults to a. -/
theorem claim9_relative_minor (k : String)
    (h : RELATIVE_MINOR.lookup k = none) :
    RELATIVE_MINOR.length = 15 ∧
    relativeMinor "c" = ("a", false) ∧
    relativeMinor "eb" = ("c", false) ∧
    relativeMinor k = ("a", true) := by
  refine ⟨rfl, rfl, rfl, ?_⟩
  unfold relativeMinor
  rw [h]

/-- Witness for C9 at the unknown key "unknown". -/
theorem claim9_relative_minor_witness :
    RELATIVE_MINOR.lookup "unknown" = none ∧
    (RELATIVE_MINOR.length = 15 ∧
     relativeMinor "c" = ("a", false) ∧
     relativeMinor "eb" = ("c", false) ∧
     relativeMinor "unknown" = ("a", true)) :=
  ⟨by decide, claim9_relative_minor "unknown" (by decide)⟩

/-- C10: whatever the key string, the generated sequence is the
lower-cased key verbatim, then a middle stretch drawn entirely from the
sharp-preferred table, then the lower-cased key again — so a
flat-spelled or unrecognized key appears as itself at both ends, never
replaced by c. -/
theorem claim10_key_verbatim (key st : String) (ivs : List Nat) (o : Nat)
    (hst : SCALE_INTERVALS.lookup st = some ivs) :
    ∃ mid, generate_scale_notes key st o =
        .ok (str_lower key :: (mid ++ [str_lower key])) ∧
      ∀ n ∈ mid, n ∈ NOTE_ORDER := by
  obtain ⟨hlen, hsum, hne⟩ := lookup_intervals st ivs hst
  have hasc :
      ascending_part key ivs o =
        str_lower key ::
          (walk (str_lower key) ivs ++
            extra_segments
              ((str_lower key :: walk (str_lower key) ivs).getLastD "")
              ivs (o - 1)) := by
    rw [ascending_part_def]
    rfl
  set T := walk (str_lower key) ivs ++
    extra_segments ((str_lower key :: walk (str_lower key) ivs).getLastD "")
      ivs (o - 1) with hT
  have hTne : T ≠ [] := by
    intro hc
    exact walk_ne_nil (str_lower key) hne (List.append_eq_nil.mp hc).1
  cases hrev : T.reverse with
  | nil => exact absurd (by simpa using congrArg List.reverse hrev) hTne
  | cons x rest =>
    refine ⟨T ++ rest, ?_, ?_⟩
    · rw [generate_eq_ok key st ivs o hst]
      congr 1
      rw [show descending_part key ivs o =
            ((ascending_part key ivs o).reverse).drop 1 from rfl, hasc,
          List.reverse_cons, hrev]
      simp [List.cons_append, List.append_assoc]
    · intro n hn
      rcases List.mem_append.mp hn with h | h
      · exact ascending_part_tail_mem key ivs o n h
      · refine ascending_part_tail_mem key ivs o n (List.mem_reverse.mp ?_)
        rw [hrev]
        exact List.mem_cons_of_mem x h

/-- Witness for C10 at the unrecognized key xyz with the major scale. -/
theorem claim10_key_verbatim_witness :
    ∃ mid, generate_scale_notes "xyz" "major" 1 =
        .ok (str_lower "xyz" :: (mid ++ [str_lower "xyz"])) ∧
      ∀ n ∈ mid, n ∈ NOTE_ORDER :=
  claim10_key_verbatim "xyz" "major" [2, 2, 1, 2, 2, 2, 1] 1 rfl
